import Mathlib

/-!
Shallow embedding of the asynchronous image-loading pipeline of
`src/imagelistview.cpp` (class `ImageListView`).

Conventions:
* C++ `int` arithmetic is modelled by `Int`; the quantities involved
  (tile indices, pixel coordinates) stay far below 2^31 in every claim,
  so overflow is not modelled.  C++ integer division and remainder
  truncate toward zero, which is `Int.tdiv` / `Int.tmod`.
* A C++ division whose divisor is zero is undefined behaviour; functions
  that can reach one return `Option` results where `none` marks the
  undefined execution (the program crashes rather than returning).
* `QRect` is modelled by its two corner points exactly as in Qt
  (`x2 = x1 + width - 1`), because the pipeline relies on Qt's corner
  conventions (`center`, `normalized`, `united`, `intersects`).
* `QCache<QString, QImage>` and `QImage::load` are external Qt library
  classes (not part of this repository); they are modelled from their
  documented Qt semantics, which §4.3/§4.4 of the specification restate:
  the cache is an LRU key-value store with unit entry cost here (every
  `insert` call in the source uses the default cost 1), `take` removes
  and returns, `insert` replaces and evicts least-recently-used entries
  over budget, and a failed `QImage::load` leaves the image null.
-/

namespace ImageListViewSpec

/-- Qt `QPoint`: a pair of integer pixel coordinates. -/
structure QPoint where
  x : Int
  y : Int
deriving DecidableEq, Repr

/-- Qt `QRect`, stored as its corner coordinates exactly like Qt does:
`x2 = x1 + width - 1`, `y2 = y1 + height - 1`. -/
structure QRect where
  x1 : Int
  y1 : Int
  x2 : Int
  y2 : Int
deriving DecidableEq, Repr

/-- Qt `QRect(x, y, width, height)` constructor. -/
def QRect.mkXYWH (x y w h : Int) : QRect :=
  ⟨x, y, x + w - 1, y + h - 1⟩

/-- Qt default-constructed `QRect()`: corners `(0,0)`, `(-1,-1)`. -/
def QRect.nullRect : QRect := ⟨0, 0, -1, -1⟩

/-- Qt `QRect::isNull`: both width and height are zero. -/
def QRect.isNullB (r : QRect) : Bool :=
  r.x2 == r.x1 - 1 && r.y2 == r.y1 - 1

/-- Qt `QRect::width`. -/
def QRect.width (r : QRect) : Int := r.x2 - r.x1 + 1

/-- Qt `QRect::height`. -/
def QRect.height (r : QRect) : Int := r.y2 - r.y1 + 1

/-- Qt `QRect::topLeft`. -/
def QRect.topLeft (r : QRect) : QPoint := ⟨r.x1, r.y1⟩

/-- Qt `QRect::bottomRight`. -/
def QRect.bottomRight (r : QRect) : QPoint := ⟨r.x2, r.y2⟩

/-- Qt `QRect::center`: the average of the corners with C++ truncating
division (Qt widens to 64 bits first, so there is no overflow to model). -/
def QRect.center (r : QRect) : QPoint :=
  ⟨(r.x1 + r.x2).tdiv 2, (r.y1 + r.y2).tdiv 2⟩

/-- Qt `QRect::normalized` (Qt 5): swap a corner pair only when the
extent is strictly negative (`x2 < x1 - 1`); a width- or height-zero
rectangle is left as it is. -/
def QRect.normalized (r : QRect) : QRect :=
  let xs : Int × Int := if r.x2 < r.x1 - 1 then (r.x2, r.x1) else (r.x1, r.x2)
  let ys : Int × Int := if r.y2 < r.y1 - 1 then (r.y2, r.y1) else (r.y1, r.y2)
  ⟨xs.1, ys.1, xs.2, ys.2⟩

/-- Qt `QRect::united` (`operator|`): a null rectangle is the identity,
otherwise each side is normalized and the bounding box taken. -/
def QRect.united (a b : QRect) : QRect :=
  if a.isNullB then b
  else if b.isNullB then a
  else
    let l1 := if a.x2 - a.x1 + 1 < 0 then a.x2 else a.x1
    let r1 := if a.x2 - a.x1 + 1 < 0 then a.x1 else a.x2
    let t1 := if a.y2 - a.y1 + 1 < 0 then a.y2 else a.y1
    let b1 := if a.y2 - a.y1 + 1 < 0 then a.y1 else a.y2
    let l2 := if b.x2 - b.x1 + 1 < 0 then b.x2 else b.x1
    let r2 := if b.x2 - b.x1 + 1 < 0 then b.x1 else b.x2
    let t2 := if b.y2 - b.y1 + 1 < 0 then b.y2 else b.y1
    let b2 := if b.y2 - b.y1 + 1 < 0 then b.y1 else b.y2
    ⟨min l1 l2, min t1 t2, max r1 r2, max b1 b2⟩

/-- Qt `QRect::intersects`: false when either side is null, otherwise
compare the normalized extents. -/
def QRect.intersectsB (a b : QRect) : Bool :=
  if a.isNullB || b.isNullB then false
  else
    let l1 := if a.x2 - a.x1 + 1 < 0 then a.x2 else a.x1
    let r1 := if a.x2 - a.x1 + 1 < 0 then a.x1 else a.x2
    let t1 := if a.y2 - a.y1 + 1 < 0 then a.y2 else a.y1
    let b1 := if a.y2 - a.y1 + 1 < 0 then a.y1 else a.y2
    let l2 := if b.x2 - b.x1 + 1 < 0 then b.x2 else b.x1
    let r2 := if b.x2 - b.x1 + 1 < 0 then b.x1 else b.x2
    let t2 := if b.y2 - b.y1 + 1 < 0 then b.y2 else b.y1
    let b2 := if b.y2 - b.y1 + 1 < 0 then b.y1 else b.y2
    decide (l1 ≤ r2) && decide (l2 ≤ r1) && decide (t1 ≤ b2) && decide (t2 ≤ b1)

/-- Containment of (normalized, non-empty) rectangles, used to state the
specification's `R1 ⊆ R2` on query rectangles. -/
def QRect.within (inner outer : QRect) : Prop :=
  outer.x1 ≤ inner.x1 ∧ inner.x2 ≤ outer.x2 ∧
  outer.y1 ≤ inner.y1 ∧ inner.y2 ≤ outer.y2

instance (a b : QRect) : Decidable (QRect.within a b) := by
  unfold QRect.within; infer_instance

/-- A decoded image.  `nullImage` is an empty/invalid `QImage` (either
freshly constructed or left null by a failed `QImage::load`);
`decoded f` is an image successfully loaded from file `f`. -/
inductive QImage where
  | nullImage : QImage
  | decoded : String → QImage
deriving DecidableEq, Repr

/-- Qt `QImage::isNull`. -/
def QImage.isNullB : QImage → Bool
  | .nullImage => true
  | .decoded _ => false

/-- Qt `QImage::load file` under a decode environment `env` telling which
file names decode successfully: on success the image holds the decoded
data, on failure the image is (left) null rather than an exception being
thrown (`QImage::load` returns `false` and resets the image to null). -/
def qImageLoad (env : String → Bool) (fileName : String) : QImage :=
  if env fileName then .decoded fileName else .nullImage

/-- The view's `QCache<QString, QImage>` member `m_imageCache`, modelled
from Qt's documented semantics (restated in §4.3 of the spec).  Every
`insert` in the source uses the default cost 1, so each entry costs 1 and
the total cost is the number of entries.  `entries` is kept in
most-recently-used-first order with distinct keys. -/
structure ImageCache where
  entries : List (String × QImage)
  maxCost : Int
deriving DecidableEq, Repr

/-- Internal: drop least-recently-used entries (the tail of the list)
until at most `bound` unit-cost entries remain (Qt `QCache::trim`). -/
def cacheTrim (bound : Int) (es : List (String × QImage)) : List (String × QImage) :=
  es.take bound.toNat

/-- Qt `QCache::remove` (without returning the object). -/
def ImageCache.removeKey (c : ImageCache) (k : String) : ImageCache :=
  { c with entries := c.entries.filter (fun e => e.1 != k) }

/-- Qt `QCache::contains`. -/
def ImageCache.containsB (c : ImageCache) (k : String) : Bool :=
  c.entries.any (fun e => e.1 == k)

/-- Qt `QCache::take`: remove the entry and hand its object out (a null
pointer — `none` — when the key is absent). -/
def ImageCache.take (c : ImageCache) (k : String) : Option QImage × ImageCache :=
  (c.entries.lookup k, c.removeKey k)

/-- Qt `QCache::insert` with the default cost 1: remove any entry under
the key, delete the object without retaining it if its cost exceeds
`maxCost`, otherwise trim to `maxCost - 1` and link the new entry as most
recently used. -/
def ImageCache.insert (c : ImageCache) (k : String) (img : QImage) : ImageCache :=
  let c1 := c.removeKey k
  if 1 > c.maxCost then c1
  else { c1 with entries := (k, img) :: cacheTrim (c.maxCost - 1) c1.entries }

/-- Qt `QCache::clear`. -/
def ImageCache.clearAll (c : ImageCache) : ImageCache :=
  { c with entries := [] }

/-- Qt `QCache::setMaxCost`: store the new budget and trim to it. -/
def ImageCache.setMaxCost (c : ImageCache) (m : Int) : ImageCache :=
  { entries := cacheTrim m c.entries, maxCost := m }

/-- The control-thread state the geometry code reads: viewport size,
`m_columnCount`, the vertical scroll bar value, and the model
(`rowCount` rows, row `r` holding the image file name `keyOf r`). -/
structure ViewState where
  viewportWidth : Int
  viewportHeight : Int
  columnCount : Int
  vScrollValue : Int
  rowCount : Int
  keyOf : Int → String

/-- `ImageListView::horizontalOffset`: always 0 (no horizontal scroll). -/
def horizontalOffset : Int := 0

/-- `ImageListView::verticalOffset`: the vertical scroll bar value. -/
def verticalOffset (s : ViewState) : Int := s.vScrollValue

/-- The `viewport()->rect()` of the view: origin-anchored viewport. -/
def viewportRect (s : ViewState) : QRect :=
  QRect.mkXYWH 0 0 s.viewportWidth s.viewportHeight

/-- The tile width `viewport()->width() / m_columnCount` computed
identically in `visualRect`, `indexAt` and `moveCursor` (undefined when
the column count is zero; the callers below guard that case). -/
def tileW (s : ViewState) : Int :=
  s.viewportWidth.tdiv s.columnCount

/-- The tile height `qMin(width, viewport()->height())`. -/
def tileH (s : ViewState) : Int :=
  min (tileW s) s.viewportHeight

/-- `ImageListView::visualRect`: an invalid model index (row outside
`[0, rowCount)`) yields the default `QRect()`; otherwise tile row/column
and size are computed by division by `m_columnCount` — undefined
behaviour (`none`) when the column count is zero. -/
def visualRect (s : ViewState) (row : Int) : Option QRect :=
  if row < 0 ∨ s.rowCount ≤ row then some QRect.nullRect
  else if s.columnCount = 0 then none
  else
    let r := row.tdiv s.columnCount
    let c := row.tmod s.columnCount
    let width := tileW s
    let height := tileH s
    let x := c * width
    let y := r * height
    some (QRect.mkXYWH (x - horizontalOffset) (y - verticalOffset s) width height)

/-- The linear index `r * m_columnCount + c` computed by `indexAt` from a
point, before the validity check (meaningful only when the divisors are
nonzero). -/
def rawIndex (s : ViewState) (p : QPoint) : Int :=
  ((p.y + verticalOffset s).tdiv (tileH s)) * s.columnCount +
    ((p.x + horizontalOffset).tdiv (tileW s))

/-- `ImageListView::indexAt`.  Result `some (some i)` is a valid model
index at row `i`; `some none` is an invalid `QModelIndex`; `none` marks
a division by zero (column count zero, or a zero tile width/height),
which in the C++ source is an undefined-behaviour crash. -/
def indexAt (s : ViewState) (p : QPoint) : Option (Option Int) :=
  if s.columnCount = 0 then none
  else
    let px := p.x + horizontalOffset
    let py := p.y + verticalOffset s
    let width := tileW s
    let height := tileH s
    if width = 0 then none
    else if height = 0 then none
    else
      let c := px.tdiv width
      let r := py.tdiv height
      let i := r * s.columnCount + c
      some (if 0 ≤ i ∧ i < s.rowCount then some i else none)

/-- `ImageListView::modelIndexRangeForRect`: normalize the query
rectangle, then take the index at its top-left corner (default 0 when
invalid) and one past the index at its bottom-right corner (default
`rowCount` when invalid). -/
def modelIndexRangeForRect (s : ViewState) (rect : QRect) : Option (Int × Int) :=
  let r := rect.normalized
  match indexAt s r.topLeft with
  | none => none
  | some startIndex =>
    let b := match startIndex with
      | some i => i
      | none => 0
    match indexAt s r.bottomRight with
    | none => none
    | some finishIndex =>
      let e := match finishIndex with
        | some i => i + 1
        | none => s.rowCount
      some (b, e)

/-- The `ImageLoadingTask` struct of the source: a model row, its image
file name, and the image pointer taken from the cache (`none` models the
null `unique_ptr`). -/
structure ImageLoadingTask where
  row : Int
  imageFileName : String
  image : Option QImage
deriving DecidableEq, Repr

/-- The per-row body of the snapshot loop in the `map` stage of the
pipeline (lines 52–57): look the file name up in the model, `take` any
cached image, and build an `ImageLoadingTask`; the cache is threaded
through the loop. -/
def snapshotRows (s : ViewState) (rows : List Int) (c : ImageCache) :
    List ImageLoadingTask × ImageCache :=
  match rows with
  | [] => ([], c)
  | row :: rest =>
    let k := s.keyOf row
    let img := (c.take k).1
    let c1 := (c.take k).2
    (⟨row, k, img⟩ :: (snapshotRows s rest c1).1, (snapshotRows s rest c1).2)

/-- The rows `[b, e)` iterated by `for (int row = range.first; row < range.second; ++row)`. -/
def rangeRows (b e : Int) : List Int :=
  (List.range (e - b).toNat).map (fun i => b + (i : Int))

/-- The snapshot stage of the pipeline: compute the visible range for
`viewport()->rect()` and run the task-building loop; `none` propagates an
undefined division in the geometry. -/
def snapshot (s : ViewState) (c : ImageCache) :
    Option (List ImageLoadingTask × ImageCache) :=
  match modelIndexRangeForRect s (viewportRect s) with
  | none => none
  | some (b, e) => some (snapshotRows s (rangeRows b e) c)

/-- The image held by a task after `if (!item->image)
item->image = std::make_unique<QImage>();`: the pointed-to image, or a
fresh null image when the pointer is null. -/
def taskImage (t : ImageLoadingTask) : QImage :=
  match t.image with
  | none => QImage.nullImage
  | some i => i

/-- The decode lambda (lines 65–78): a null task pointer is replaced by a
fresh null `QImage`; if the image is null it is loaded from the file
name, otherwise the existing image is reused.  The boolean records
whether a `load` call was made (a decode attempt). -/
def decodeTask (env : String → Bool) (t : ImageLoadingTask) :
    ImageLoadingTask × Bool :=
  let img0 := taskImage t
  if img0.isNullB then
    ({ t with image := some (qImageLoad env t.imageFileName) }, true)
  else
    ({ t with image := some img0 }, false)

/-- Observable actions of the apply stage: a cache insert under a key, or
a `viewport()->update(rect)` repaint request. -/
inductive ViewOp where
  | insertTile : String → ViewOp
  | repaint : QRect → ViewOp
deriving DecidableEq, Repr

/-- The loop body of the subscribe lambda (lines 100–104): insert each
buffered task's image into the cache and union its tile rectangle into
the damage rectangle.  `none` propagates an undefined division inside
`visualRect`. -/
def applyItems (s : ViewState) (items : List ImageLoadingTask)
    (c : ImageCache) (inval : QRect) :
    Option (ImageCache × QRect × List ViewOp) :=
  match items with
  | [] => some (c, inval, [])
  | item :: rest =>
    let c1 := c.insert item.imageFileName (taskImage item)
    match visualRect s item.row with
    | none => none
    | some itemRect =>
      match applyItems s rest c1 (inval.united itemRect) with
      | none => none
      | some (c2, inval2, ops) =>
        some (c2, inval2, ViewOp.insertTile item.imageFileName :: ops)

/-- The whole subscribe lambda (lines 98–108): apply every buffered task,
then issue exactly one repaint of the damage union when it intersects
`viewport()->rect()`. -/
def applyBatch (s : ViewState) (c : ImageCache) (items : List ImageLoadingTask) :
    Option (ImageCache × List ViewOp) :=
  match applyItems s items c QRect.nullRect with
  | none => none
  | some (c2, inval, ops) =>
    some (c2, ops ++ (if (viewportRect s).intersectsB inval then [ViewOp.repaint inval] else []))

/-- Events observed by the reactive pipeline, after debouncing:
`trigger` is a debounced load event firing the snapshot stage (one new
generation); `complete g items` is a buffered batch of decode
completions belonging to generation `g` arriving at `switch_on_next`;
`scrollTo v` is the vertical scroll-bar value change that precedes the
`emitLoadEvent()` call in `verticalScrollbarValueChanged`. -/
inductive PipeEvent where
  | trigger : PipeEvent
  | complete : Nat → List ImageLoadingTask → PipeEvent
  | scrollTo : Int → PipeEvent

/-- The pipeline state: the view, the image cache, the generation of the
innermost (current) task series selected by `switch_on_next`, and the
log of observable cache/repaint actions. -/
structure PipeState where
  view : ViewState
  cache : ImageCache
  curGen : Nat
  ops : List ViewOp

/-- One pipeline step.  A `trigger` runs the snapshot stage and makes its
task series the current generation (`switch_on_next` switches to the new
inner observable).  A completion batch of the current generation is
applied by the subscribe lambda; a batch of any other (superseded)
generation was unsubscribed by `switch_on_next`, so it is dropped with no
effect ("если во время загрузки серии изображений возникает новая серия,
о старой забываем"). -/
def pipeStep (st : PipeState) : PipeEvent → Option PipeState
  | .trigger =>
    match snapshot st.view st.cache with
    | none => none
    | some (_tasks, c1) =>
      some { st with cache := c1, curGen := st.curGen + 1 }
  | .complete g items =>
    if g = st.curGen then
      match applyBatch st.view st.cache items with
      | none => none
      | some (c1, newOps) =>
        some { st with cache := c1, ops := st.ops ++ newOps }
    else
      some st
  | .scrollTo v =>
    some { st with view := { st.view with vScrollValue := v } }

/-- Run the pipeline over a sequence of events. -/
def pipeRun (st : PipeState) : List PipeEvent → Option PipeState
  | [] => some st
  | e :: es =>
    match pipeStep st e with
    | none => none
    | some st1 => pipeRun st1 es

/-- Owner-level state for the slots outside the stream (`reset`,
`setColumnCount`, `updateGeometries`): the view parameters, the cache,
and the number of load events pushed into the debounced stream. -/
structure OwnerState where
  view : ViewState
  cache : ImageCache
  loadEventCount : Nat

/-- `ImageListView::emitLoadEvent`: push a load event into the stream. -/
def emitLoadEvent (o : OwnerState) : OwnerState :=
  { o with loadEventCount := o.loadEventCount + 1 }

/-- `ImageListView::reset` (lines 469–474): the base-class reset (no
cache effect), then `m_imageCache.clear()`, then `emitLoadEvent()`. -/
def reset (o : OwnerState) : OwnerState :=
  emitLoadEvent { o with cache := o.cache.clearAll }

/-- `ImageListView::setColumnCount` (lines 121–125): store the new column
count and call `reset()`. -/
def setColumnCount (o : OwnerState) (n : Int) : OwnerState :=
  reset { o with view := { o.view with columnCount := n } }

/-- The `maxCost` value computed by `ImageListView::updateGeometries`
(lines 406–415): `viewportRowCount * m_columnCount * 5` where
`viewportRowCount = modelRowCount / m_columnCount + (modelRowCount % m_columnCount ? 1 : 0)`
is computed from the model row count.  Division by a zero column count is
undefined behaviour (`none`).  The scroll-bar configuration computed by
the rest of the function does not feed into this value. -/
def updateGeometriesMaxCost (s : ViewState) : Option Int :=
  if s.columnCount = 0 then none
  else
    let modelRowCount := s.rowCount
    let viewportRowCount :=
      modelRowCount.tdiv s.columnCount +
        (if modelRowCount.tmod s.columnCount ≠ 0 then 1 else 0)
    some (viewportRowCount * s.columnCount * 5)

/-- The cache-capacity effect of `ImageListView::updateGeometries`:
`m_imageCache.setMaxCost(viewportRowCount * m_columnCount * 5)`. -/
def updateGeometries (s : ViewState) (c : ImageCache) : Option ImageCache :=
  match updateGeometriesMaxCost s with
  | none => none
  | some m => some (c.setMaxCost m)

/-- Modelled from the spec's words for claim C2 (the claim's reading of
the capacity policy, to be compared against `updateGeometriesMaxCost`):
`maxCost = 5 × capacity` with `capacity = viewportRows × columnCount`,
where `viewportRows` is the number of tile rows that fit in the viewport,
derived from the viewport size (`viewportHeight / tileHeight` with the
tile size of §4.1). -/
def claimVisibleCapacityMaxCost (s : ViewState) : Option Int :=
  if s.columnCount = 0 then none
  else
    let tileWidth := s.viewportWidth.tdiv s.columnCount
    let tileHeight := min tileWidth s.viewportHeight
    if tileHeight = 0 then none
    else some (s.viewportHeight.tdiv tileHeight * s.columnCount * 5)

/-!  Arithmetic helper lemmas about C++ truncating division. -/

/-- Truncating division by a positive divisor is monotone in the
dividend. -/
theorem tdiv_le_tdiv_of_le {d : Int} (hd : 0 < d) {a b : Int} (h : a ≤ b) :
    a.tdiv d ≤ b.tdiv d := by
  rcases le_or_lt 0 a with ha | ha
  · rw [Int.tdiv_eq_ediv ha hd.le, Int.tdiv_eq_ediv (le_trans ha h) hd.le]
    exact Int.ediv_le_ediv hd h
  · rcases le_or_lt 0 b with hb | hb
    · have h1 : a.tdiv d ≤ 0 := by
        have : 0 ≤ (-a).tdiv d := Int.tdiv_nonneg (by omega) hd.le
        have hneg : (-a).tdiv d = -(a.tdiv d) := Int.neg_tdiv a d
        omega
      have h2 : 0 ≤ b.tdiv d := Int.tdiv_nonneg hb hd.le
      omega
    · have e1 : (-a).tdiv d = -(a.tdiv d) := Int.neg_tdiv a d
      have e2 : (-b).tdiv d = -(b.tdiv d) := Int.neg_tdiv b d
      have h3 : (-b).tdiv d ≤ (-a).tdiv d := by
        rw [Int.tdiv_eq_ediv (by omega) hd.le, Int.tdiv_eq_ediv (by omega) hd.le]
        exact Int.ediv_le_ediv hd (by omega)
      omega

/-- Bounds for the Qt rectangle-centre computation: for a tile extent
`h ≥ 1` anchored at coordinate `b`, the centre coordinate
`(b + (b + h - 1)) tdiv 2` lies inside `[b, b + h - 1]`, for every sign
of `b`. -/
theorem center_tdiv_bounds {h : Int} (hh : 1 ≤ h) (b : Int) :
    b ≤ (b + (b + h - 1)).tdiv 2 ∧ (b + (b + h - 1)).tdiv 2 ≤ b + h - 1 := by
  set n : Int := b + (b + h - 1) with hn
  rcases le_or_lt 0 n with h0 | h0
  · rw [Int.tdiv_eq_ediv h0 (by norm_num)]
    omega
  · have e1 : n.tdiv 2 = -((-n).tdiv 2) := by
      have := Int.neg_tdiv n 2
      omega
    rw [Int.tdiv_eq_ediv (a := -n) (by omega) (by norm_num)] at e1
    omega

/-- Recovering the quotient: `(q*d + e) tdiv d = q` when `0 ≤ q` and
`0 ≤ e < d`. -/
theorem tdiv_mul_add {d q e : Int} (hq : 0 ≤ q) (he0 : 0 ≤ e) (he1 : e < d) :
    (q * d + e).tdiv d = q := by
  have hd : 0 < d := lt_of_le_of_lt he0 he1
  have hnn : 0 ≤ q * d + e := by positivity
  rw [Int.tdiv_eq_ediv hnn hd.le]
  rw [show q * d + e = e + q * d by ring]
  rw [Int.add_mul_ediv_right e q hd.ne.symm, Int.ediv_eq_zero_of_lt he0 he1]
  omega

/-!  Geometry lemmas. -/

/-- Under nondegenerate geometry, `indexAt` is the validity filter of
`rawIndex`. -/
theorem indexAt_eq (s : ViewState) (p : QPoint) (hcc : s.columnCount ≠ 0)
    (hw : tileW s ≠ 0) (hh : tileH s ≠ 0) :
    indexAt s p =
      some (if 0 ≤ rawIndex s p ∧ rawIndex s p < s.rowCount
            then some (rawIndex s p) else none) := by
  simp [indexAt, rawIndex, hcc, hw, hh]

/-- Under nondegenerate geometry, `rawIndex` is monotone in the point. -/
theorem rawIndex_mono (s : ViewState) (hcc : 0 < s.columnCount)
    (hw : 0 < tileW s) (hh : 0 < tileH s) {p q : QPoint}
    (hx : p.x ≤ q.x) (hy : p.y ≤ q.y) :
    rawIndex s p ≤ rawIndex s q := by
  unfold rawIndex
  have h1 : (p.y + verticalOffset s).tdiv (tileH s) ≤
      (q.y + verticalOffset s).tdiv (tileH s) :=
    tdiv_le_tdiv_of_le hh (by omega)
  have h2 : (p.x + horizontalOffset).tdiv (tileW s) ≤
      (q.x + horizontalOffset).tdiv (tileW s) :=
    tdiv_le_tdiv_of_le hw (by omega)
  have h3 : (p.y + verticalOffset s).tdiv (tileH s) * s.columnCount ≤
      (q.y + verticalOffset s).tdiv (tileH s) * s.columnCount :=
    mul_le_mul_of_nonneg_right h1 hcc.le
  omega

/-- Normalization is the identity on a rectangle whose corners are in
order. -/
theorem normalized_of_proper {r : QRect} (hx : r.x1 ≤ r.x2) (hy : r.y1 ≤ r.y2) :
    r.normalized = r := by
  simp [QRect.normalized, if_neg (by omega : ¬ r.x2 < r.x1 - 1),
    if_neg (by omega : ¬ r.y2 < r.y1 - 1)]

/-- Unfolding `modelIndexRangeForRect` for a proper rectangle under
nondegenerate geometry: both corners contribute through `rawIndex`. -/
theorem modelIndexRangeForRect_eq (s : ViewState) {r : QRect}
    (hcc : s.columnCount ≠ 0) (hw : tileW s ≠ 0) (hh : tileH s ≠ 0)
    (hx : r.x1 ≤ r.x2) (hy : r.y1 ≤ r.y2) :
    modelIndexRangeForRect s r =
      some
        ((if 0 ≤ rawIndex s r.topLeft ∧ rawIndex s r.topLeft < s.rowCount
          then rawIndex s r.topLeft else 0),
         (if 0 ≤ rawIndex s r.bottomRight ∧ rawIndex s r.bottomRight < s.rowCount
          then rawIndex s r.bottomRight + 1 else s.rowCount)) := by
  unfold modelIndexRangeForRect
  simp only [normalized_of_proper hx hy,
    indexAt_eq s r.topLeft hcc hw hh, indexAt_eq s r.bottomRight hcc hw hh]
  by_cases h1 : 0 ≤ rawIndex s r.topLeft ∧ rawIndex s r.topLeft < s.rowCount <;>
    by_cases h2 : 0 ≤ rawIndex s r.bottomRight ∧ rawIndex s r.bottomRight < s.rowCount <;>
      simp [h1, h2]

/-!  Concrete fixtures used by counterexamples and witnesses. -/

/-- A model whose rows all map to the empty key (the geometry functions
never read it). -/
def noKeys : Int → String := fun _ => ""

/-- A zero-width viewport with five columns. -/
def sZeroWidth : ViewState := ⟨0, 50, 5, 0, 10, noKeys⟩

/-- A zero column count. -/
def sZeroCols : ViewState := ⟨100, 50, 0, 0, 10, noKeys⟩

/-- Viewport 100×100, five columns, 1000 model rows. -/
def sCap : ViewState := ⟨100, 100, 5, 0, 1000, noKeys⟩

/-- Viewport 50×20, five columns, 12 model rows (the spec's end-to-end
scenario geometry). -/
def sCap12 : ViewState := ⟨50, 20, 5, 0, 12, noKeys⟩

/-!  Claim C3. -/

/-- C3: the claim demands that with `viewportWidth == 0` or
`columnCount == 0` the point-to-index and visible-range computations
return an empty/invalid result instead of dividing by zero.  The code
violates this: with a zero-width viewport, `indexAt` computes
`width = 0/5 = 0` and then `p.x() / width`, a division by zero
(undefined behaviour), modelled as the `none` outcome; with a zero
column count, `viewport()->width() / m_columnCount` itself divides by
zero, in `indexAt`, `visualRect` and hence `modelIndexRangeForRect`. -/
theorem indexAt_divides_by_zero_on_degenerate_geometry :
    indexAt sZeroWidth ⟨0, 0⟩ = none ∧
    modelIndexRangeForRect sZeroWidth (QRect.mkXYWH 0 0 10 10) = none ∧
    indexAt sZeroCols ⟨0, 0⟩ = none ∧
    modelIndexRangeForRect sZeroCols (QRect.mkXYWH 0 0 10 10) = none ∧
    visualRect sZeroCols 3 = none := by
  refine ⟨by decide, by decide, by decide, by decide, by decide⟩

/-!  Claim C2. -/

/-- C2 counterexample: for a 100×100 viewport with 5 columns and 1000
model rows, `updateGeometries` sets `maxCost` to 5000 (five times the
whole model's row-aligned tile capacity), not to five times the visible
tile capacity 25 (which would give 125): the implemented `maxCost` is a
function of the model row count, not of the viewport size. -/
theorem updateGeometries_maxCost_counterexample :
    updateGeometriesMaxCost sCap = some 5000 ∧
    claimVisibleCapacityMaxCost sCap = some 125 ∧
    updateGeometriesMaxCost sCap ≠ claimVisibleCapacityMaxCost sCap := by
  refine ⟨by decide, by decide, by decide⟩

/-- C2 amended: whenever the viewport size or column count changes,
`updateGeometries` sets `maxCost` to `5 × columnCount × gridRows` where
`gridRows = ceil(modelRowCount / columnCount)` is the number of tile rows
of the whole model — a value independent of the viewport size. -/
theorem updateGeometries_maxCost_amended (s : ViewState)
    (hcc : 0 < s.columnCount) (hrc : 0 ≤ s.rowCount) :
    ∃ q : Int,
      updateGeometriesMaxCost s = some (q * s.columnCount * 5) ∧
      s.rowCount ≤ q * s.columnCount ∧
      q * s.columnCount < s.rowCount + s.columnCount ∧
      (∀ w h v, updateGeometriesMaxCost
          { s with viewportWidth := w, viewportHeight := h, vScrollValue := v } =
        updateGeometriesMaxCost s) := by
  refine ⟨s.rowCount.tdiv s.columnCount +
    (if s.rowCount.tmod s.columnCount ≠ 0 then 1 else 0), ?_, ?_, ?_, ?_⟩
  · simp [updateGeometriesMaxCost, hcc.ne']
  · have ht : s.rowCount.tdiv s.columnCount = s.rowCount / s.columnCount :=
      Int.tdiv_eq_ediv hrc hcc.le
    have hm : s.rowCount.tmod s.columnCount = s.rowCount % s.columnCount :=
      Int.tmod_eq_emod hrc hcc.le
    have hdm : s.columnCount * (s.rowCount / s.columnCount) + s.rowCount % s.columnCount
        = s.rowCount := Int.ediv_add_emod s.rowCount s.columnCount
    have hm0 : 0 ≤ s.rowCount % s.columnCount := Int.emod_nonneg s.rowCount hcc.ne'
    have hm1 : s.rowCount % s.columnCount < s.columnCount :=
      Int.emod_lt_of_pos s.rowCount hcc
    rw [ht, hm]
    by_cases hz : s.rowCount % s.columnCount = 0
    · simp only [hz, ne_eq, not_true_eq_false, if_neg, not_false_eq_true, ite_eq_right_iff]
      have : (s.rowCount / s.columnCount + 0) * s.columnCount
          = s.columnCount * (s.rowCount / s.columnCount) := by ring
      omega
    · simp only [hz, ne_eq, not_false_eq_true, if_pos]
      have : (s.rowCount / s.columnCount + 1) * s.columnCount
          = s.columnCount * (s.rowCount / s.columnCount) + s.columnCount := by ring
      omega
  · have ht : s.rowCount.tdiv s.columnCount = s.rowCount / s.columnCount :=
      Int.tdiv_eq_ediv hrc hcc.le
    have hm : s.rowCount.tmod s.columnCount = s.rowCount % s.columnCount :=
      Int.tmod_eq_emod hrc hcc.le
    have hdm : s.columnCount * (s.rowCount / s.columnCount) + s.rowCount % s.columnCount
        = s.rowCount := Int.ediv_add_emod s.rowCount s.columnCount
    have hm0 : 0 ≤ s.rowCount % s.columnCount := Int.emod_nonneg s.rowCount hcc.ne'
    have hm1 : s.rowCount % s.columnCount < s.columnCount :=
      Int.emod_lt_of_pos s.rowCount hcc
    rw [ht, hm]
    by_cases hz : s.rowCount % s.columnCount = 0
    · simp only [hz, ne_eq, not_true_eq_false, if_neg, not_false_eq_true, ite_eq_right_iff]
      have : (s.rowCount / s.columnCount + 0) * s.columnCount
          = s.columnCount * (s.rowCount / s.columnCount) := by ring
      omega
    · simp only [hz, ne_eq, not_false_eq_true, if_pos]
      have : (s.rowCount / s.columnCount + 1) * s.columnCount
          = s.columnCount * (s.rowCount / s.columnCount) + s.columnCount := by ring
      omega
  · intro w h v
    simp [updateGeometriesMaxCost]

/-- Witness for the amended C2 theorem at the spec's end-to-end geometry
(5 columns, 12 rows). -/
theorem updateGeometries_maxCost_amended_witness :
    ∃ q : Int,
      updateGeometriesMaxCost sCap12 = some (q * sCap12.columnCount * 5) ∧
      sCap12.rowCount ≤ q * sCap12.columnCount ∧
      q * sCap12.columnCount < sCap12.rowCount + sCap12.columnCount ∧
      (∀ w h v, updateGeometriesMaxCost
          { sCap12 with viewportWidth := w, viewportHeight := h, vScrollValue := v } =
        updateGeometriesMaxCost sCap12) :=
  updateGeometries_maxCost_amended sCap12 (by decide) (by decide)

/-!  Claim C10. -/

/-- C10: `setColumnCount` stores the new column count and calls
`reset()`, which clears the whole image cache and emits a load trigger —
so no cached image survives a column-count change. -/
theorem setColumnCount_clears_cache_and_triggers (o : OwnerState) (n : Int) :
    (setColumnCount o n).view.columnCount = n ∧
    (setColumnCount o n).cache.entries = [] ∧
    (∀ k, (setColumnCount o n).cache.containsB k = false) ∧
    (setColumnCount o n).loadEventCount = o.loadEventCount + 1 := by
  refine ⟨rfl, rfl, fun k => rfl, rfl⟩

/-!  Claim C4. -/

/-- Unfolding `visualRect` at a valid row with a nonzero column count. -/
theorem visualRect_of_valid (s : ViewState) (row : Int)
    (h0 : 0 ≤ row) (h1 : row < s.rowCount) (hcc : s.columnCount ≠ 0) :
    visualRect s row =
      some (QRect.mkXYWH
        (row.tmod s.columnCount * tileW s - horizontalOffset)
        (row.tdiv s.columnCount * tileH s - verticalOffset s)
        (tileW s) (tileH s)) := by
  unfold visualRect
  rw [if_neg (by omega), if_neg hcc]

/-- C4: for every valid row, mapping the row to its tile rectangle with
`visualRect` and mapping the rectangle's centre back with `indexAt`
returns the same row, for any column count `≥ 1`, any viewport wide
enough for one pixel-wide tile (`columnCount ≤ viewportWidth`), any
positive viewport height and any scroll offset. -/
theorem index_roundtrip (s : ViewState) (row : Int)
    (hcc : 0 < s.columnCount) (hvw : s.columnCount ≤ s.viewportWidth)
    (hvh : 1 ≤ s.viewportHeight) (h0 : 0 ≤ row) (h1 : row < s.rowCount) :
    ∃ rect, visualRect s row = some rect ∧
      indexAt s rect.center = some (some row) := by
  have hw : 1 ≤ tileW s := by
    unfold tileW
    rw [Int.tdiv_eq_ediv (by omega) hcc.le]
    rw [Int.le_ediv_iff_mul_le hcc]
    omega
  have hh : 1 ≤ tileH s := le_min hw hvh
  have hc0 : 0 ≤ row.tmod s.columnCount := Int.tmod_nonneg s.columnCount h0
  have hc1 : row.tmod s.columnCount < s.columnCount := Int.tmod_lt_of_pos row hcc
  have hr0 : 0 ≤ row.tdiv s.columnCount := Int.tdiv_nonneg h0 hcc.le
  refine ⟨_, visualRect_of_valid s row h0 h1 hcc.ne', ?_⟩
  rw [indexAt_eq s _ hcc.ne' (by omega) (by omega)]
  have hx := center_tdiv_bounds hw (row.tmod s.columnCount * tileW s - horizontalOffset)
  have hy := center_tdiv_bounds hh (row.tdiv s.columnCount * tileH s - verticalOffset s)
  have hraw : rawIndex s (QRect.mkXYWH
      (row.tmod s.columnCount * tileW s - horizontalOffset)
      (row.tdiv s.columnCount * tileH s - verticalOffset s)
      (tileW s) (tileH s)).center = row := by
    unfold rawIndex QRect.center QRect.mkXYWH
    simp only
    set cx := ((row.tmod s.columnCount * tileW s - horizontalOffset) +
      (row.tmod s.columnCount * tileW s - horizontalOffset + tileW s - 1)).tdiv 2 with hcx
    set cy := ((row.tdiv s.columnCount * tileH s - verticalOffset s) +
      (row.tdiv s.columnCount * tileH s - verticalOffset s + tileH s - 1)).tdiv 2 with hcy
    have ex : (cx + horizontalOffset).tdiv (tileW s) = row.tmod s.columnCount := by
      have hrw : cx + horizontalOffset =
          row.tmod s.columnCount * tileW s + (cx + horizontalOffset - row.tmod s.columnCount * tileW s) := by
        ring
      rw [hrw]
      exact tdiv_mul_add hc0 (by omega) (by omega)
    have ey : (cy + verticalOffset s).tdiv (tileH s) = row.tdiv s.columnCount := by
      have hrw : cy + verticalOffset s =
          row.tdiv s.columnCount * tileH s + (cy + verticalOffset s - row.tdiv s.columnCount * tileH s) := by
        ring
      rw [hrw]
      exact tdiv_mul_add hr0 (by omega) (by omega)
    rw [ex, ey]
    have := Int.tdiv_add_tmod row s.columnCount
    have hcomm : row.tdiv s.columnCount * s.columnCount =
        s.columnCount * row.tdiv s.columnCount := mul_comm _ _
    omega
  rw [hraw, if_pos ⟨h0, h1⟩]

/-- Witness for the round-trip theorem: viewport 50×20, five columns,
row 7. -/
theorem index_roundtrip_witness :
    ∃ rect, visualRect sCap12 7 = some rect ∧
      indexAt sCap12 rect.center = some (some 7) :=
  index_roundtrip sCap12 7 (by decide) (by decide) (by decide) (by decide) (by decide)

/-!  Claim C6. -/

/-- Viewport 20×100, two columns, 100 model rows (tiles 10×10). -/
def sTwoCols : ViewState := ⟨20, 100, 2, 0, 100, noKeys⟩

/-- C6 counterexample: for the height-zero query rectangle
`QRect(0, 10, 1, 0)` (corners `(0,10)` and `(0,9)`, left unchanged by
`QRect::normalized`) with two columns and 10×10 tiles, the computed
range is `(2, 1)`: its first index exceeds its last, violating the
claimed invariant `0 ≤ first ≤ last ≤ rowCount`. -/
theorem modelIndexRange_bounds_counterexample :
    modelIndexRangeForRect sTwoCols (QRect.mkXYWH 0 10 1 0) = some (2, 1) ∧
    ¬ ((2 : Int) ≤ 1) := by
  refine ⟨by decide, by decide⟩

/-- C6 amended: for every query rectangle that is non-empty once
normalized (corners in order: the failing cases are exactly the
width-zero or height-zero rectangles, which Qt's `normalized` leaves
corner-reversed), under nondegenerate geometry the computed range is
`(first, last)` with `first` the index at the rectangle's top-left
(default 0 when invalid) and `last` one past the index at its
bottom-right (default `rowCount` when invalid), and
`0 ≤ first ≤ last ≤ rowCount` holds. -/
theorem modelIndexRange_bounds_amended (s : ViewState) (r : QRect)
    (hcc : 0 < s.columnCount) (hw : 0 < tileW s) (hh : 0 < tileH s)
    (hrc : 0 ≤ s.rowCount) (hx : r.x1 ≤ r.x2) (hy : r.y1 ≤ r.y2) :
    ∃ tl br b e,
      indexAt s r.topLeft = some tl ∧
      indexAt s r.bottomRight = some br ∧
      modelIndexRangeForRect s r = some (b, e) ∧
      b = (match tl with | some i => i | none => 0) ∧
      e = (match br with | some i => i + 1 | none => s.rowCount) ∧
      0 ≤ b ∧ b ≤ e ∧ e ≤ s.rowCount := by
  have hmono : rawIndex s r.topLeft ≤ rawIndex s r.bottomRight :=
    rawIndex_mono s hcc hw hh (p := r.topLeft) (q := r.bottomRight) hx hy
  rw [modelIndexRangeForRect_eq s hcc.ne' hw.ne' hh.ne' hx hy,
    indexAt_eq s r.topLeft hcc.ne' hw.ne' hh.ne',
    indexAt_eq s r.bottomRight hcc.ne' hw.ne' hh.ne']
  by_cases h1 : 0 ≤ rawIndex s r.topLeft ∧ rawIndex s r.topLeft < s.rowCount <;>
    by_cases h2 : 0 ≤ rawIndex s r.bottomRight ∧ rawIndex s r.bottomRight < s.rowCount
  · simp only [if_pos h1, if_pos h2]
    exact ⟨_, _, _, _, rfl, rfl, rfl, rfl, rfl, by omega, by omega, by omega⟩
  · simp only [if_pos h1, if_neg h2]
    exact ⟨_, _, _, _, rfl, rfl, rfl, rfl, rfl, by omega, by omega, by omega⟩
  · simp only [if_neg h1, if_pos h2]
    exact ⟨_, _, _, _, rfl, rfl, rfl, rfl, rfl, by omega, by omega, by omega⟩
  · simp only [if_neg h1, if_neg h2]
    exact ⟨_, _, _, _, rfl, rfl, rfl, rfl, rfl, by omega, by omega, by omega⟩

/-- Witness for the amended C6 theorem: the 50×20 viewport rectangle
itself as query rectangle. -/
theorem modelIndexRange_bounds_amended_witness :
    ∃ tl br b e,
      indexAt sCap12 (viewportRect sCap12).topLeft = some tl ∧
      indexAt sCap12 (viewportRect sCap12).bottomRight = some br ∧
      modelIndexRangeForRect sCap12 (viewportRect sCap12) = some (b, e) ∧
      b = (match tl with | some i => i | none => 0) ∧
      e = (match br with | some i => i + 1 | none => sCap12.rowCount) ∧
      0 ≤ b ∧ b ≤ e ∧ e ≤ sCap12.rowCount :=
  modelIndexRange_bounds_amended sCap12 (viewportRect sCap12)
    (by decide) (by decide) (by decide) (by decide) (by decide) (by decide)

/-!  Claim C5. -/

/-- Viewport 10×10, one column, two model rows (tiles 10×10). -/
def sOneCol : ViewState := ⟨10, 10, 1, 0, 2, noKeys⟩

/-- C5 counterexample: with one column, 10×10 tiles and two model rows,
the 1×1 query rectangle at `(0, 25)` lies below the grid, so both its
corners are out of bounds and its range defaults to the full `(0, 2)`;
widening it upward to the rectangle spanning `(0, 15)`–`(0, 25)` makes
the top-left corner resolve to valid index 1, and the range shrinks to
`(1, 2)`: index 0 falls out of the range even though the query rectangle
only grew. -/
theorem visibleRange_monotonicity_counterexample :
    QRect.within (QRect.mkXYWH 0 25 1 1) (QRect.mkXYWH 0 15 1 11) ∧
    modelIndexRangeForRect sOneCol (QRect.mkXYWH 0 25 1 1) = some (0, 2) ∧
    modelIndexRangeForRect sOneCol (QRect.mkXYWH 0 15 1 11) = some (1, 2) ∧
    ((0 : Int) ≤ 0 ∧ (0 : Int) < 2) ∧ ¬ ((1 : Int) ≤ 0) := by
  refine ⟨by decide, by decide, by decide, by decide, by decide⟩

/-- C5 amended: widening the query rectangle never shrinks the visible
range, provided both corner points of the inner rectangle resolve to
valid indices; when a corner is out of bounds its defaulting (to 0 or
`rowCount`) can make the narrow rectangle's range strictly larger than
the wide one's, as the counterexample shows. -/
theorem visibleRange_monotonic_amended (s : ViewState) (r1 r2 : QRect)
    (i j : Int)
    (hcc : 0 < s.columnCount) (hw : 0 < tileW s) (hh : 0 < tileH s)
    (hx1 : r1.x1 ≤ r1.x2) (hy1 : r1.y1 ≤ r1.y2)
    (hx2 : r2.x1 ≤ r2.x2) (hy2 : r2.y1 ≤ r2.y2)
    (hsub : QRect.within r1 r2)
    (htl : indexAt s r1.topLeft = some (some i))
    (hbr : indexAt s r1.bottomRight = some (some j)) :
    ∃ b2 e2,
      modelIndexRangeForRect s r1 = some (i, j + 1) ∧
      modelIndexRangeForRect s r2 = some (b2, e2) ∧
      b2 ≤ i ∧ j + 1 ≤ e2 := by
  obtain ⟨hsx1, hsx2, hsy1, hsy2⟩ := hsub
  rw [indexAt_eq s r1.topLeft hcc.ne' hw.ne' hh.ne'] at htl
  rw [indexAt_eq s r1.bottomRight hcc.ne' hw.ne' hh.ne'] at hbr
  have htl' : 0 ≤ rawIndex s r1.topLeft ∧ rawIndex s r1.topLeft < s.rowCount ∧
      rawIndex s r1.topLeft = i := by
    by_cases hc : 0 ≤ rawIndex s r1.topLeft ∧ rawIndex s r1.topLeft < s.rowCount
    · rw [if_pos hc] at htl
      exact ⟨hc.1, hc.2, by injection htl with h; injection h⟩
    · rw [if_neg hc] at htl
      exact absurd htl (by simp)
  have hbr' : 0 ≤ rawIndex s r1.bottomRight ∧ rawIndex s r1.bottomRight < s.rowCount ∧
      rawIndex s r1.bottomRight = j := by
    by_cases hc : 0 ≤ rawIndex s r1.bottomRight ∧ rawIndex s r1.bottomRight < s.rowCount
    · rw [if_pos hc] at hbr
      exact ⟨hc.1, hc.2, by injection hbr with h; injection h⟩
    · rw [if_neg hc] at hbr
      exact absurd hbr (by simp)
  have hm1 : rawIndex s r2.topLeft ≤ rawIndex s r1.topLeft :=
    rawIndex_mono s hcc hw hh (p := r2.topLeft) (q := r1.topLeft) hsx1 hsy1
  have hm2 : rawIndex s r1.bottomRight ≤ rawIndex s r2.bottomRight :=
    rawIndex_mono s hcc hw hh (p := r1.bottomRight) (q := r2.bottomRight) hsx2 hsy2
  rw [modelIndexRangeForRect_eq s hcc.ne' hw.ne' hh.ne' hx1 hy1,
    modelIndexRangeForRect_eq s hcc.ne' hw.ne' hh.ne' hx2 hy2]
  rw [if_pos ⟨htl'.1, htl'.2.1⟩, if_pos ⟨hbr'.1, hbr'.2.1⟩, htl'.2.2, hbr'.2.2]
  by_cases h1 : 0 ≤ rawIndex s r2.topLeft ∧ rawIndex s r2.topLeft < s.rowCount <;>
    by_cases h2 : 0 ≤ rawIndex s r2.bottomRight ∧ rawIndex s r2.bottomRight < s.rowCount
  · rw [if_pos h1, if_pos h2]
    exact ⟨_, _, rfl, rfl, by omega, by omega⟩
  · rw [if_pos h1, if_neg h2]
    exact ⟨_, _, rfl, rfl, by omega, by omega⟩
  · rw [if_neg h1, if_pos h2]
    exact ⟨_, _, rfl, rfl, by omega, by omega⟩
  · rw [if_neg h1, if_neg h2]
    exact ⟨_, _, rfl, rfl, by omega, by omega⟩

/-- Witness for the amended C5 theorem: tile 1's rectangle inside a
larger query rectangle on the 50×20 viewport. -/
theorem visibleRange_monotonic_amended_witness :
    ∃ b2 e2,
      modelIndexRangeForRect sCap12 (QRect.mkXYWH 10 0 10 10) = some (1, 1 + 1) ∧
      modelIndexRangeForRect sCap12 (QRect.mkXYWH 0 0 30 20) = some (b2, e2) ∧
      b2 ≤ 1 ∧ 1 + 1 ≤ e2 :=
  visibleRange_monotonic_amended sCap12 (QRect.mkXYWH 10 0 10 10) (QRect.mkXYWH 0 0 30 20)
    1 1 (by decide) (by decide) (by decide) (by decide) (by decide) (by decide) (by decide)
    (by decide) (by decide) (by decide)

/-!  Cache lemmas shared by the pipeline claims. -/

/-- Removing a key removes it: the filtered entry list no longer
contains it. -/
theorem containsB_removeKey_self (c : ImageCache) (k : String) :
    (c.removeKey k).containsB k = false := by
  simp only [ImageCache.removeKey, ImageCache.containsB, List.any_eq_false]
  intro e he
  have := List.of_mem_filter he
  simpa using this

/-- Removing some key never makes another key appear. -/
theorem containsB_removeKey_of_false (c : ImageCache) (k k' : String)
    (h : c.containsB k = false) : (c.removeKey k').containsB k = false := by
  simp only [ImageCache.removeKey, ImageCache.containsB, List.any_eq_false] at h ⊢
  intro e he
  exact h e (List.mem_of_mem_filter he)

/-- Looking a key up is unaffected by removing a different key. -/
theorem lookup_removeKey_ne (es : List (String × QImage)) (k k' : String)
    (h : k' ≠ k) :
    (es.filter (fun e => e.1 != k)).lookup k' = es.lookup k' := by
  induction es with
  | nil => rfl
  | cons e rest ih =>
    by_cases hek : e.1 = k
    · have : (e.1 != k) = false := by simp [hek]
      simp only [List.filter_cons, this, if_neg, Bool.false_eq_true, not_false_eq_true]
      rw [ih]
      have : (k' == e.1) = false := by simp [hek, h]
      simp [List.lookup, this]
    · have : (e.1 != k) = true := by simp [hek]
      simp only [List.filter_cons, this, if_pos]
      by_cases hk' : k' = e.1
      · simp [List.lookup, hk']
      · have : (k' == e.1) = false := by simp [hk']
        simp [List.lookup, this, ih]

/-- The snapshot loop only removes cache entries: an absent key stays
absent. -/
theorem snapshotRows_contains_false (s : ViewState) (rows : List Int) :
    ∀ (c : ImageCache) (k : String), c.containsB k = false →
      ((snapshotRows s rows c).2).containsB k = false := by
  induction rows with
  | nil => intro c k h; exact h
  | cons row rest ih =>
    intro c k h
    simp only [snapshotRows, ImageCache.take]
    exact ih _ k (containsB_removeKey_of_false c k (s.keyOf row) h)

/-- Every task built by the snapshot loop is keyed by the model's file
name for its row. -/
theorem snapshotRows_key (s : ViewState) :
    ∀ (rows : List Int) (c : ImageCache),
      ∀ t ∈ (snapshotRows s rows c).1, t.imageFileName = s.keyOf t.row := by
  intro rows
  induction rows with
  | nil => intro c t ht; exact absurd ht (by simp [snapshotRows])
  | cons row rest ih =>
    intro c t ht
    simp only [snapshotRows] at ht
    rcases List.mem_cons.1 ht with h | h
    · subst h; rfl
    · exact ih _ t h

/-- Every task key built by the snapshot loop comes from the iterated
rows. -/
theorem snapshotRows_key_mem (s : ViewState) :
    ∀ (rows : List Int) (c : ImageCache),
      ∀ t ∈ (snapshotRows s rows c).1, t.imageFileName ∈ rows.map s.keyOf := by
  intro rows
  induction rows with
  | nil => intro c t ht; exact absurd ht (by simp [snapshotRows])
  | cons row rest ih =>
    intro c t ht
    simp only [snapshotRows] at ht
    rcases List.mem_cons.1 ht with h | h
    · subst h; simp
    · simp only [List.map_cons, List.mem_cons]
      exact Or.inr (ih _ t h)

/-- When the visible rows have pairwise distinct keys, the image stored
into each task is exactly the image the original cache held under the
task's key. -/
theorem snapshotRows_image_lookup (s : ViewState) :
    ∀ (rows : List Int) (c : ImageCache), (rows.map s.keyOf).Nodup →
      ∀ t ∈ (snapshotRows s rows c).1,
        t.image = c.entries.lookup t.imageFileName := by
  intro rows
  induction rows with
  | nil => intro c _ t ht; exact absurd ht (by simp [snapshotRows])
  | cons row rest ih =>
    intro c hnd t ht
    simp only [List.map_cons, List.nodup_cons] at hnd
    simp only [snapshotRows] at ht
    rcases List.mem_cons.1 ht with h | h
    · subst h; rfl
    · have h1 := ih (c.removeKey (s.keyOf row)) hnd.2 t h
      have hmem := snapshotRows_key_mem s rest (c.removeKey (s.keyOf row)) t h
      have hkey : t.imageFileName ≠ s.keyOf row := by
        intro he
        exact hnd.1 (he ▸ hmem)
      rw [h1]
      exact lookup_removeKey_ne c.entries (s.keyOf row) t.imageFileName hkey

/-!  Claim C9. -/

/-- C9: the snapshot loop builds one task per visible row, keyed by the
model's file name for that row, and `take`s any cached image out of the
cache into the task — afterwards no key of the range remains in the
cache; the decode stage reuses a present non-empty image without
loading, and loads from the key otherwise. -/
theorem snapshot_takes_and_decode_reuses (s : ViewState) (rows : List Int)
    (c : ImageCache) :
    ((snapshotRows s rows c).1.map (fun t => t.row) = rows) ∧
    (∀ t ∈ (snapshotRows s rows c).1, t.imageFileName = s.keyOf t.row) ∧
    (∀ row ∈ rows, ((snapshotRows s rows c).2).containsB (s.keyOf row) = false) ∧
    ((rows.map s.keyOf).Nodup →
      ∀ t ∈ (snapshotRows s rows c).1, t.image = c.entries.lookup t.imageFileName) ∧
    (∀ (env : String → Bool) (t : ImageLoadingTask) (img : QImage),
      t.image = some img → img.isNullB = false → decodeTask env t = (t, false)) ∧
    (∀ (env : String → Bool) (t : ImageLoadingTask),
      t.image = none ∨ t.image = some QImage.nullImage →
      decodeTask env t = ({ t with image := some (qImageLoad env t.imageFileName) }, true)) := by
  refine ⟨?_, snapshotRows_key s rows c, ?_, snapshotRows_image_lookup s rows c, ?_, ?_⟩
  · induction rows generalizing c with
    | nil => rfl
    | cons row rest ih => simp [snapshotRows, ih]
  · induction rows generalizing c with
    | nil => intro row h; exact absurd h (by simp)
    | cons row rest ih =>
      intro r hr
      rcases List.mem_cons.1 hr with h | h
      · subst h
        simp only [snapshotRows, ImageCache.take]
        exact snapshotRows_contains_false s rest _ _ (containsB_removeKey_self c (s.keyOf r))
      · simp only [snapshotRows, ImageCache.take]
        exact ih _ r h
  · intro env t img hsome hnn
    cases t with
    | mk row fn im =>
      cases hsome
      simp [decodeTask, taskImage, hnn]
  · intro env t himg
    cases t with
    | mk row fn im =>
      rcases himg with h | h <;> cases h <;>
        simp [decodeTask, taskImage, QImage.isNullB]

/-- Witness for C9 on one concrete row: the cached image for key `"a"`
is taken out of the cache by the snapshot and a non-empty image is
reused without a decode attempt. -/
theorem snapshot_takes_and_decode_reuses_witness :
    ((snapshotRows ⟨10, 10, 1, 0, 2, fun r => if r = 0 then "a" else "b"⟩ [0]
        ⟨[("a", QImage.decoded "a")], 100⟩).2).containsB
      ((⟨10, 10, 1, 0, 2, fun r => if r = 0 then "a" else "b"⟩ : ViewState).keyOf 0) = false ∧
    decodeTask (fun _ => false) ⟨0, "a", some (QImage.decoded "a")⟩ =
      (⟨0, "a", some (QImage.decoded "a")⟩, false) := by
  refine ⟨?_, ?_⟩
  · exact (snapshot_takes_and_decode_reuses
      ⟨10, 10, 1, 0, 2, fun r => if r = 0 then "a" else "b"⟩ [0]
      ⟨[("a", QImage.decoded "a")], 100⟩).2.2.1 0 (by decide)
  · exact (snapshot_takes_and_decode_reuses
      ⟨10, 10, 1, 0, 2, fun r => if r = 0 then "a" else "b"⟩ [0]
      ⟨[("a", QImage.decoded "a")], 100⟩).2.2.2.2.1 (fun _ => false)
      ⟨0, "a", some (QImage.decoded "a")⟩ (QImage.decoded "a") rfl rfl

/-!  Claim C7. -/

/-- The tile rectangle of a row, with the undefined case defaulted (used
only to state properties; the execution model `visualRect` keeps the
undefined case explicit). -/
def visualRectD (s : ViewState) (row : Int) : QRect :=
  (visualRect s row).getD QRect.nullRect

/-- With a nonzero column count, `visualRect` never divides by zero. -/
theorem visualRect_some_of_cc (s : ViewState) (row : Int)
    (hcc : s.columnCount ≠ 0) :
    visualRect s row = some (visualRectD s row) := by
  have hs : (visualRect s row).isSome := by
    unfold visualRect
    by_cases h1 : row < 0 ∨ s.rowCount ≤ row
    · rw [if_pos h1]; rfl
    · rw [if_neg h1, if_neg hcc]; rfl
  obtain ⟨r, hr⟩ := Option.isSome_iff_exists.1 hs
  simp [visualRectD, hr]

/-- Repaint operations among the observable actions. -/
def isRepaintB : ViewOp → Bool
  | .repaint _ => true
  | .insertTile _ => false

/-- A list of insert operations contains no repaint. -/
theorem filter_repaint_map_insert (f : ImageLoadingTask → String) :
    ∀ l : List ImageLoadingTask,
      (l.map (fun t => ViewOp.insertTile (f t))).filter isRepaintB = [] := by
  intro l
  induction l with
  | nil => rfl
  | cons t rest ih => simp [isRepaintB, ih]

/-- Unfolding the apply loop: under a nonzero column count it performs
the fold of cache inserts and damage unions and logs one insert per
task, in order. -/
theorem applyItems_spec (s : ViewState) (hcc : s.columnCount ≠ 0) :
    ∀ (items : List ImageLoadingTask) (c : ImageCache) (inval : QRect),
      applyItems s items c inval =
        some
          (items.foldl (fun acc t => acc.insert t.imageFileName (taskImage t)) c,
           items.foldl (fun acc t => acc.united (visualRectD s t.row)) inval,
           items.map (fun t => ViewOp.insertTile t.imageFileName)) := by
  intro items
  induction items with
  | nil => intro c inval; rfl
  | cons t rest ih =>
    intro c inval
    simp only [applyItems, List.foldl_cons, List.map_cons]
    rw [visualRect_some_of_cc s t.row hcc]
    simp only [ih]

/-- C7: applying a buffered batch inserts every task's image into the
cache under the task's key (one insert operation per task, in batch
order), unions the tasks' tile rectangles into a single damage
rectangle, and issues exactly one repaint — of that union — precisely
when the union intersects the current viewport rectangle, and no repaint
otherwise. -/
theorem apply_batch_inserts_and_repaints_once (s : ViewState)
    (c : ImageCache) (items : List ImageLoadingTask)
    (hcc : s.columnCount ≠ 0) :
    ∃ c' U ops,
      applyBatch s c items = some (c', ops) ∧
      U = items.foldl (fun acc t => acc.united (visualRectD s t.row)) QRect.nullRect ∧
      c' = items.foldl (fun acc t => acc.insert t.imageFileName (taskImage t)) c ∧
      ops = items.map (fun t => ViewOp.insertTile t.imageFileName) ++
        (if (viewportRect s).intersectsB U then [ViewOp.repaint U] else []) ∧
      (∀ t ∈ items, ViewOp.insertTile t.imageFileName ∈ ops) ∧
      (ops.filter isRepaintB).length =
        (if (viewportRect s).intersectsB U then 1 else 0) ∧
      ((viewportRect s).intersectsB U = true → ViewOp.repaint U ∈ ops) := by
  refine ⟨_, _, _, ?_, rfl, rfl, rfl, ?_, ?_, ?_⟩
  · unfold applyBatch
    rw [applyItems_spec s hcc items c QRect.nullRect]
  · intro t ht
    exact List.mem_append_left _ (List.mem_map_of_mem _ ht)
  · rw [List.filter_append, filter_repaint_map_insert _ items]
    by_cases hi : (viewportRect s).intersectsB
        (items.foldl (fun acc t => acc.united (visualRectD s t.row)) QRect.nullRect) = true
    · simp [hi, isRepaintB]
    · simp only [Bool.not_eq_true] at hi
      simp [hi]
  · intro hi
    refine List.mem_append_right _ ?_
    rw [if_pos hi]
    exact List.mem_singleton_self _

/-- Witness for C7: the three tiles `{2,3,7}` of the spec's batch-damage
scenario on the 50×20 viewport. -/
theorem apply_batch_inserts_and_repaints_once_witness :
    ∃ c' U ops,
      applyBatch sCap12 ⟨[], 100⟩
        [⟨2, "2", some (QImage.decoded "2")⟩,
         ⟨3, "3", some (QImage.decoded "3")⟩,
         ⟨7, "7", some (QImage.decoded "7")⟩] = some (c', ops) ∧
      U = [(⟨2, "2", some (QImage.decoded "2")⟩ : ImageLoadingTask),
           ⟨3, "3", some (QImage.decoded "3")⟩,
           ⟨7, "7", some (QImage.decoded "7")⟩].foldl
            (fun acc t => acc.united (visualRectD sCap12 t.row)) QRect.nullRect ∧
      c' = [(⟨2, "2", some (QImage.decoded "2")⟩ : ImageLoadingTask),
           ⟨3, "3", some (QImage.decoded "3")⟩,
           ⟨7, "7", some (QImage.decoded "7")⟩].foldl
            (fun acc t => acc.insert t.imageFileName (taskImage t)) ⟨[], 100⟩ ∧
      ops = [(⟨2, "2", some (QImage.decoded "2")⟩ : ImageLoadingTask),
           ⟨3, "3", some (QImage.decoded "3")⟩,
           ⟨7, "7", some (QImage.decoded "7")⟩].map
            (fun t => ViewOp.insertTile t.imageFileName) ++
        (if (viewportRect sCap12).intersectsB U then [ViewOp.repaint U] else []) ∧
      (∀ t ∈ [(⟨2, "2", some (QImage.decoded "2")⟩ : ImageLoadingTask),
           ⟨3, "3", some (QImage.decoded "3")⟩,
           ⟨7, "7", some (QImage.decoded "7")⟩],
        ViewOp.insertTile t.imageFileName ∈ ops) ∧
      (ops.filter isRepaintB).length =
        (if (viewportRect sCap12).intersectsB U then 1 else 0) ∧
      ((viewportRect sCap12).intersectsB U = true → ViewOp.repaint U ∈ ops) :=
  apply_batch_inserts_and_repaints_once sCap12 ⟨[], 100⟩
    [⟨2, "2", some (QImage.decoded "2")⟩,
     ⟨3, "3", some (QImage.decoded "3")⟩,
     ⟨7, "7", some (QImage.decoded "7")⟩] (by decide)

/-!  Claim C8. -/

/-- A one-row model whose only key is `"x"`. -/
def sOneKey : ViewState := ⟨10, 10, 1, 0, 1, fun _ => "x"⟩

/-- C8 counterexample for the claim's no-reload consequence: a failed
decode stores a null image in the cache; the next visibility trigger
`take`s that null image back into a task, whose decode attempts
`QImage::load` again (the reuse test requires a non-empty image), so the
load *is* re-attempted on every trigger. -/
theorem failed_decode_reattempt_counterexample :
    decodeTask (fun _ => false) ⟨0, "x", none⟩ =
      (⟨0, "x", some QImage.nullImage⟩, true) ∧
    (applyBatch sOneKey ⟨[], 100⟩ [⟨0, "x", some QImage.nullImage⟩]).map
      (fun r => r.1.containsB "x") = some true ∧
    (snapshotRows sOneKey [0] ⟨[("x", QImage.nullImage)], 100⟩).1 =
      [⟨0, "x", some QImage.nullImage⟩] ∧
    (decodeTask (fun _ => false) ⟨0, "x", some QImage.nullImage⟩).2 = true := by
  refine ⟨by decide, by decide, by decide, by decide⟩

/-- C8 amended: a load task whose decode fails completes with an empty
image (no exception is modelled: `QImage::load` merely leaves the image
null), and the empty image is still inserted into the cache under the
task's key; however, a subsequent visibility trigger over the same index
*does* re-attempt the load, because only a present non-empty image is
reused by the decode stage. -/
theorem failed_decode_cached_but_reloaded (env : String → Bool)
    (t : ImageLoadingTask) (henv : env t.imageFileName = false)
    (himg : t.image = none ∨ t.image = some QImage.nullImage) :
    decodeTask env t = ({ t with image := some QImage.nullImage }, true) ∧
    (∀ c : ImageCache, 1 ≤ c.maxCost →
      (c.insert t.imageFileName QImage.nullImage).containsB t.imageFileName = true) ∧
    (decodeTask env { t with image := some QImage.nullImage }).2 = true := by
  refine ⟨?_, ?_, ?_⟩
  · cases t with
    | mk row fn im =>
      rcases himg with h | h <;> cases h <;>
        simp_all [decodeTask, taskImage, QImage.isNullB, qImageLoad]
  · intro c hmc
    have hno : ¬ (1 > c.maxCost) := by omega
    simp [ImageCache.insert, hno, ImageCache.containsB]
  · simp [decodeTask, taskImage, QImage.isNullB]

/-- Witness for the amended C8 theorem at the key `"x"` with an
always-failing decode environment. -/
theorem failed_decode_cached_but_reloaded_witness :
    decodeTask (fun _ => false) ⟨0, "x", none⟩ =
      ({ (⟨0, "x", none⟩ : ImageLoadingTask) with image := some QImage.nullImage }, true) ∧
    (∀ c : ImageCache, 1 ≤ c.maxCost →
      (c.insert (ImageLoadingTask.imageFileName ⟨0, "x", none⟩) QImage.nullImage).containsB
        (ImageLoadingTask.imageFileName ⟨0, "x", none⟩) = true) ∧
    (decodeTask (fun _ => false)
      { (⟨0, "x", none⟩ : ImageLoadingTask) with image := some QImage.nullImage }).2 = true :=
  failed_decode_cached_but_reloaded (fun _ => false) ⟨0, "x", none⟩ rfl (Or.inl rfl)

/-!  Claim C1. -/

/-- A two-row model with keys `"a"`, `"b"`, one column, 10×10 tiles, so
the 10×10 viewport shows exactly one tile. -/
def svGen : ViewState := ⟨10, 10, 1, 0, 2, fun r => if r = 0 then "a" else "b"⟩

/-- Initial pipeline state for the stale-generation scenario: the cache
holds an image for `"a"`, no generation has run yet. -/
def stGen0 : PipeState := ⟨svGen, ⟨[("a", QImage.decoded "a")], 100⟩, 0, []⟩

/-- C1: `switch_on_next` makes a completion batch of any generation
other than the current one a no-op on arrival: the state — cache
included — is unchanged and no insert or repaint action is logged.
Concretely (the spec's stale-generation scenario): generation 1 snapshots
key `"a"` (taking it out of the cache); before its decode completes, a
scroll starts generation 2 over the disjoint key `"b"`; when generation
1's completion for `"a"` arrives it is dropped, the cache does not
contain `"a"`, and no damage is reported for it. -/
theorem stale_generation_completions_ignored :
    (∀ (st : PipeState) (g : Nat) (items : List ImageLoadingTask),
      g ≠ st.curGen → pipeStep st (.complete g items) = some st) ∧
    ((pipeRun stGen0
        [.trigger, .scrollTo 10, .trigger,
         .complete 1 [⟨0, "a", some (QImage.decoded "a")⟩]]).map
      (fun st => (st.cache.containsB "a", st.cache.entries, st.ops)) =
      some (false, [], [])) := by
  constructor
  · intro st g items hne
    simp [pipeStep, hne]
  · decide

/-- Witness for the stale-drop theorem: a generation-5 completion
arriving while generation 0 is current leaves the scenario's initial
state untouched. -/
theorem stale_generation_completions_ignored_witness :
    pipeStep stGen0 (.complete 5 []) = some stGen0 :=
  stale_generation_completions_ignored.1 stGen0 5 [] (by decide)

end ImageListViewSpec
